import Mathlib

/-!
Verification development for a small Flask RSS-feed aggregator (`src/app.py`).

The program's core is modelled shallowly:

* strings are `List Char` (`Str`), so that structural induction is available;
* Python `datetime` values are `PyDateTime`: a naive wall-clock reading
  (seconds, `Int`) plus an optional attached timezone (`Tz`);
* `feedparser` entries are `RawEntry` records of optional fields; attribute
  access on a missing field raises `AttributeError`, which the embedding
  represents by returning `none` from the processing functions;
* the SQLAlchemy/SQLite store is a list of `Article` values in insertion
  order; `ORDER BY published DESC` is captured relationally by the guarantee
  the query provides — a permutation of the rows descending in the stored
  wall-clock value, with the order of equal-key rows unspecified — and a
  stable sort serves as its executable determinization; `LIKE`/`ilike` is an
  executable pattern matcher;
* the `/rss` route's f-string rendering is reproduced character by character,
  and well-formedness of the produced XML is decided by an executable
  tag-nesting scanner.

External-library behaviour that the code relies on is modelled as follows:
`requests.get` either raises (a transport failure) or returns a body whose
`feedparser.parse` result is a list of entries; `datetime.strptime` with
format `"%a, %d %b %Y %H:%M:%S %z"` is implemented as an executable parser
(covering the `±HHMM` / `±HH:MM` offset shapes of `%z`); the numeric UTC
offset of `pytz.timezone("Europe/Amsterdam")` is abstracted to its standard
offset, and no claim depends on its value.  The configured feed-URL list is
abstracted to the per-feed fetch outcomes of a pass, and the store keeps the
datetime values the pipeline supplies: ordering compares their wall-clock
reading, which is what SQLite stores and compares for a `DateTime` column.
-/

set_option maxRecDepth 16000

namespace FlaskRss

/-- Strings are modelled as lists of characters. -/
abbrev Str := List Char

/-- ASCII lower-casing of one character, as done by SQLite's `lower()` and by
its case-insensitive `LIKE`. -/
def lowerChar (c : Char) : Char :=
  match c with
  | 'A' => 'a' | 'B' => 'b' | 'C' => 'c' | 'D' => 'd' | 'E' => 'e' | 'F' => 'f'
  | 'G' => 'g' | 'H' => 'h' | 'I' => 'i' | 'J' => 'j' | 'K' => 'k' | 'L' => 'l'
  | 'M' => 'm' | 'N' => 'n' | 'O' => 'o' | 'P' => 'p' | 'Q' => 'q' | 'R' => 'r'
  | 'S' => 's' | 'T' => 't' | 'U' => 'u' | 'V' => 'v' | 'W' => 'w' | 'X' => 'x'
  | 'Y' => 'y' | 'Z' => 'z' | c => c

/-- ASCII lower-casing of a string. -/
def lowerStr (s : Str) : Str := s.map lowerChar

/-- Python's whitespace class for `str.strip` (and the `\s` class used by
`strptime` for literal spaces in a format string). -/
def isPySpace (c : Char) : Bool :=
  c = ' ' || c = '\t' || c = '\n' || c = '\r' || c = '\x0b' || c = '\x0c'

/-- Python `str.strip()` with no argument: drop whitespace from both ends. -/
def pyStrip (s : Str) : Str :=
  ((s.dropWhile isPySpace).reverse.dropWhile isPySpace).reverse

/-! ## Calendar arithmetic

Civil (proleptic Gregorian) date/time values and their conversion to and from
a count of seconds, used to give `datetime` values a single comparable
wall-clock reading. -/

/-- A civil date-time: year, month (1-12), day, hour, minute, second. -/
structure Civil where
  y : Int
  mo : Nat
  d : Nat
  h : Nat
  mi : Nat
  s : Nat
deriving DecidableEq

/-- Gregorian leap-year test. -/
def isLeap (y : Int) : Bool :=
  (Int.emod y 4 = 0 && Int.emod y 100 ≠ 0) || Int.emod y 400 = 0

/-- Number of days in a month (with leap years). -/
def daysInMonth (y : Int) (m : Nat) : Nat :=
  if m = 2 then (if isLeap y then 29 else 28)
  else if m = 4 || m = 6 || m = 9 || m = 11 then 30
  else 31

/-- Days since 1970-01-01 of a civil date (days-from-civil algorithm). -/
def daysFromCivil (y : Int) (m d : Nat) : Int :=
  let y2 : Int := if m ≤ 2 then y - 1 else y
  let era : Int := Int.ediv y2 400
  let yoe : Int := y2 - era * 400
  let mp : Int := Int.emod ((m : Int) + 9) 12
  let doy : Int := Int.ediv (153 * mp + 2) 5 + (d : Int) - 1
  let doe : Int := yoe * 365 + Int.ediv yoe 4 - Int.ediv yoe 100 + doy
  era * 146097 + doe - 719468

/-- Civil date of a count of days since 1970-01-01 (civil-from-days). -/
def civilFromDays (z0 : Int) : Int × Nat × Nat :=
  let z := z0 + 719468
  let era := Int.ediv z 146097
  let doe := Int.emod z 146097
  let yoe := Int.ediv (doe - Int.ediv doe 1460 + Int.ediv doe 36524 - Int.ediv doe 146096) 365
  let y := yoe + era * 400
  let doy := doe - (365 * yoe + Int.ediv yoe 4 - Int.ediv yoe 100)
  let mp := Int.ediv (5 * doy + 2) 153
  let d := (doy - Int.ediv (153 * mp + 2) 5 + 1).toNat
  let m := if mp < 10 then mp + 3 else mp - 9
  (if m ≤ 2 then y + 1 else y, m.toNat, d)

/-- Seconds since the epoch of a civil date-time read as a wall clock. -/
def secondsOfCivil (c : Civil) : Int :=
  86400 * daysFromCivil c.y c.mo c.d + 3600 * (c.h : Int) + 60 * (c.mi : Int) + (c.s : Int)

/-- Civil date-time of a wall-clock second count. -/
def civilOfSeconds (t : Int) : Civil :=
  let days := Int.ediv t 86400
  let rem := (Int.emod t 86400).toNat
  let ymd := civilFromDays days
  ⟨ymd.1, ymd.2.1, ymd.2.2, rem / 3600, rem % 3600 / 60, rem % 60⟩

/-- Day of week (0 = Sunday … 6 = Saturday) of a wall-clock second count. -/
def weekdayOfSeconds (t : Int) : Nat :=
  (Int.emod (Int.ediv t 86400 + 4) 7).toNat

/-! ## Timezone and datetime model -/

/-- A Python `tzinfo` value as the program uses them: either the
`pytz.timezone("Europe/Amsterdam")` zone or a fixed UTC offset in minutes
(produced by `strptime`'s `%z`). -/
inductive Tz where
  | amsterdam
  | fixed (offMin : Int)
deriving DecidableEq

/-- UTC offset (seconds) of the Amsterdam zone at a given instant.  The pytz
zone table is external to the program; it is abstracted to the zone's
standard offset, and no claim depends on the numeric value. -/
def amsOffsetSec (_instant : Int) : Int := 3600

/-- UTC offset (seconds) of the host's local timezone, used by `time.mktime`
and by `astimezone` on naive values; abstracted to UTC. -/
def localOffsetSec : Int := 0

/-- UTC offset in seconds of a `Tz` at a given instant. -/
def tzOffsetSec (tz : Tz) (instant : Int) : Int :=
  match tz with
  | .amsterdam => amsOffsetSec instant
  | .fixed m => m * 60

/-- A Python `datetime`: a naive wall-clock reading in seconds plus an
optional attached timezone (`none` = naive). -/
structure PyDateTime where
  wall : Int
  tz : Option Tz
deriving DecidableEq

/-- `datetime.utcnow()`: the current UTC wall clock, with NO timezone
attached (a naive value). -/
def utcnow (nowUtc : Int) : PyDateTime := ⟨nowUtc, none⟩

/-- `datetime.now(amsterdam_tz)`: the current instant expressed in the
Amsterdam zone, timezone-aware. -/
def nowAms (nowUtc : Int) : PyDateTime :=
  ⟨nowUtc + amsOffsetSec nowUtc, some .amsterdam⟩

/-- `d.astimezone(amsterdam_tz)`: convert to the Amsterdam zone (a naive
receiver is interpreted in the host's local timezone). -/
def astimezoneAms (d : PyDateTime) : PyDateTime :=
  let inst :=
    match d.tz with
    | some tz => d.wall - tzOffsetSec tz d.wall
    | none => d.wall - localOffsetSec
  ⟨inst + amsOffsetSec inst, some .amsterdam⟩

/-- `time.mktime(tt)`: epoch seconds of a time-tuple interpreted in the
host's local timezone. -/
def mktime (tt : Civil) : Int := secondsOfCivil tt - localOffsetSec

/-- `datetime.fromtimestamp(epoch, amsterdam_tz)`: the instant expressed in
the Amsterdam zone, timezone-aware. -/
def fromtimestampAms (epoch : Int) : PyDateTime :=
  ⟨epoch + amsOffsetSec epoch, some .amsterdam⟩

/-! ## The `strptime` date parser

`datetime.strptime(s, "%a, %d %b %Y %H:%M:%S %z")`, as an executable
function returning `none` where Python raises `ValueError`.  Numeric fields
follow `_strptime`'s regexes (1-2 digits for `%d`/`%H`/`%M`/`%S`, exactly 4
for `%Y`), names are matched case-insensitively, a literal space matches a
nonempty whitespace run, and `%z` is covered in its `±HHMM` / `±HH:MM`
shapes.  Out-of-range components make the `datetime` constructor (or the
`timezone` constructor, for offsets of a day or more) raise, which the
parser reflects by returning `none`. -/

/-- Abbreviated weekday names, `Sun` first (index = `weekdayOfSeconds`). -/
def weekdayNames : List Str :=
  ["Sun".toList, "Mon".toList, "Tue".toList, "Wed".toList,
   "Thu".toList, "Fri".toList, "Sat".toList]

/-- Abbreviated month names, January first. -/
def monthNames : List Str :=
  ["Jan".toList, "Feb".toList, "Mar".toList, "Apr".toList, "May".toList,
   "Jun".toList, "Jul".toList, "Aug".toList, "Sep".toList, "Oct".toList,
   "Nov".toList, "Dec".toList]

/-- Consume an exact literal. -/
def pLit : Str → Str → Option Str
  | [], s => some s
  | _ :: _, [] => none
  | c :: p, d :: s => if c = d then pLit p s else none

/-- Consume a nonempty whitespace run (what a literal space in a `strptime`
format matches). -/
def pSpaces1 : Str → Option Str
  | [] => none
  | c :: rest => if isPySpace c then some (rest.dropWhile isPySpace) else none

/-- Value of a decimal digit. -/
def pDigit (c : Char) : Option Nat :=
  if c.isDigit then some (c.toNat - 48) else none

/-- One or two decimal digits, greedily. -/
def pDigits12 : Str → Option (Nat × Str)
  | [] => none
  | [c] => (pDigit c).map (fun a => (a, []))
  | c :: d :: rest =>
    match pDigit c with
    | none => none
    | some a =>
      match pDigit d with
      | some b => some (10 * a + b, rest)
      | none => some (a, d :: rest)

/-- Exactly four decimal digits. -/
def pDigits4 : Str → Option (Nat × Str)
  | a :: b :: c :: d :: rest =>
    match pDigit a, pDigit b, pDigit c, pDigit d with
    | some x, some y, some z, some w => some (1000 * x + 100 * y + 10 * z + w, rest)
    | _, _, _, _ => none
  | _ => none

/-- Strip a name case-insensitively from the front of the input. -/
def stripNameCI : Str → Str → Option Str
  | [], s => some s
  | _ :: _, [] => none
  | c :: nm, d :: s => if lowerChar c = lowerChar d then stripNameCI nm s else none

/-- Match one of a list of names case-insensitively, returning its index. -/
def pNameCI (names : List Str) (s : Str) : Option (Nat × Str) :=
  go names 0
where
  go : List Str → Nat → Option (Nat × Str)
    | [], _ => none
    | nm :: rest, i =>
      match stripNameCI nm s with
      | some r => some (i, r)
      | none => go rest (i + 1)

/-- The `%z` field: `±HHMM` or `±HH:MM`, giving a UTC offset in minutes. -/
def parseZ : Str → Option (Int × Str)
  | sign :: rest =>
    let sgn : Option Int := if sign = '+' then some 1 else if sign = '-' then some (-1) else none
    match sgn with
    | none => none
    | some sg =>
      match rest with
      | h1 :: h2 :: more =>
        match pDigit h1, pDigit h2 with
        | some a, some b =>
          let hh := 10 * a + b
          let more2 := match more with
            | ':' :: m2 => m2
            | m2 => m2
          match more2 with
          | m1 :: m2 :: tail =>
            match pDigit m1, pDigit m2 with
            | some x, some y => some (sg * (hh * 60 + (10 * x + y)), tail)
            | _, _ => none
          | _ => none
        | _, _ => none
      | _ => none
  | [] => none

/-- The `%a, %d %b %Y` part: weekday name (parsed, not checked against the
date), day, month, year. -/
def parseDatePart (s : Str) : Option (Nat × Nat × Nat × Str) :=
  match pNameCI weekdayNames s with
  | none => none
  | some (_, r1) =>
    match pLit (",".toList) r1 with
    | none => none
    | some r2 =>
      match (pSpaces1 r2).bind pDigits12 with
      | none => none
      | some (d, r4) =>
        match (pSpaces1 r4).bind (pNameCI monthNames) with
        | none => none
        | some (moIdx, r6) =>
          match (pSpaces1 r6).bind pDigits4 with
          | none => none
          | some (y, r8) => some (d, moIdx + 1, y, r8)

/-- The `%H:%M:%S %z` part: hour, minute, second, offset minutes. -/
def parseTimePart (s : Str) : Option (Nat × Nat × Nat × Int × Str) :=
  match pDigits12 s with
  | none => none
  | some (h, r10) =>
    match (pLit (":".toList) r10).bind pDigits12 with
    | none => none
    | some (mi, r12) =>
      match (pLit (":".toList) r12).bind pDigits12 with
      | none => none
      | some (sec, r14) =>
        match (pSpaces1 r14).bind parseZ with
        | none => none
        | some (off, r16) => some (h, mi, sec, off, r16)

/-- `datetime.strptime(s, "%a, %d %b %Y %H:%M:%S %z")`, returning an aware
datetime with a fixed-offset timezone, or `none` on `ValueError`. -/
def parsePubDate (s : Str) : Option PyDateTime :=
  match parseDatePart s with
  | none => none
  | some (d, mo, y, r8) =>
    match (pSpaces1 r8).bind parseTimePart with
    | none => none
    | some (h, mi, sec, off, r16) =>
      if r16 = [] && 1 ≤ y && 1 ≤ d && d ≤ daysInMonth (y : Int) mo &&
          h ≤ 23 && mi ≤ 59 && sec ≤ 59 && -1440 < off && off < 1440 then
        some ⟨secondsOfCivil ⟨(y : Int), mo, d, h, mi, sec⟩, some (.fixed off)⟩
      else
        none

/-! ## Entries, articles, and the ingestion pass (`update_feed`) -/

/-- A parsed feed entry as `update_feed` probes it: every field the code
touches is optionally present (`feedparser` entries raise `AttributeError`
on access to a missing field, while `'f' in entry` tests presence).
`published_parsed` can also be present but `None` (`some none`). -/
structure RawEntry where
  title : Option Str
  link : Option Str
  pubDate : Option Str
  published_parsed : Option (Option Civil)
  summary : Option Str
  description : Option Str
deriving DecidableEq

/-- The stored `Article` row: `title` and `link` non-null, `published` and
`summary` nullable (the pipeline always supplies them). -/
structure Article where
  title : Str
  link : Str
  published : Option PyDateTime
  summary : Str
deriving DecidableEq

/-- Lines 70-81 of `update_feed`: resolve the entry's publication date.
`pubDate` is tried first; a parse failure falls back to `datetime.utcnow()`
(even when `published_parsed` is present); the time-tuple path runs only
when no `pubDate` field exists and the tuple is present and truthy. -/
def entryPublished (e : RawEntry) (nowUtc : Int) : PyDateTime :=
  match e.pubDate with
  | some s =>
    match parsePubDate s with
    | some d => astimezoneAms d
    | none => utcnow nowUtc
  | none =>
    match e.published_parsed with
    | some (some tt) => fromtimestampAms (mktime tt)
    | _ => utcnow nowUtc

/-- Line 84: `entry.summary if 'summary' in entry else entry.description if
'description' in entry else ''`. -/
def entrySummary (e : RawEntry) : Str :=
  match e.summary with
  | some s => s
  | none =>
    match e.description with
    | some d => d
    | none => []

/-- Lines 65-92: process one entry against the session-visible store
(committed rows plus pending adds; the session autoflushes, so the
duplicate check sees pending adds).  `none` models an uncaught
`AttributeError` from accessing a missing `link` (line 67) or, for a new
entry, a missing `title` (line 87); that exception aborts the pass. -/
def processEntry (store : List Article) (e : RawEntry) (nowUtc : Int) :
    Option (List Article) :=
  match e.link with
  | none => none
  | some l =>
    if store.any (fun a => a.link == l) then
      some store
    else
      let pub := entryPublished e nowUtc
      let summ := entrySummary e
      match e.title with
      | none => none
      | some t => some (store ++ [⟨t, l, some pub, summ⟩])

/-- Process a feed's entries in order; an exception from any entry aborts
the remainder. -/
def processEntries (store : List Article) (es : List RawEntry) (nowUtc : Int) :
    Option (List Article) :=
  match es with
  | [] => some store
  | e :: rest =>
    match processEntry store e nowUtc with
    | none => none
    | some s2 => processEntries s2 rest nowUtc

/-- What fetching one configured URL can produce, from the caller's point of
view: `exc` when `requests.get` raises (timeout, connection refused, ...),
otherwise the entry list that `feedparser.parse` extracts from the response
body (a non-success status is not raised; its body typically parses to no
entries). -/
inductive FetchResult where
  | exc
  | page (entries : List RawEntry)
deriving DecidableEq

/-- All entries carried by a pass's fetch results. -/
def feedEntries : List FetchResult → List RawEntry
  | [] => []
  | .exc :: rest => feedEntries rest
  | .page es :: rest => es ++ feedEntries rest

/-- Lines 57-94 of `update_feed`: one ingestion pass over the configured
feeds, given the fetch outcome of each.  An empty entry list is skipped
(`continue`); an uncaught exception (`none`) abandons the pass before the
final `db.session.commit()`, so nothing from the pass is persisted. -/
def update_feed (feeds : List FetchResult) (store : List Article) (nowUtc : Int) :
    Option (List Article) :=
  match feeds with
  | [] => some store
  | .exc :: _ => none
  | .page es :: rest =>
    if es.isEmpty then
      update_feed rest store nowUtc
    else
      match processEntries store es nowUtc with
      | none => none
      | some s2 => update_feed rest s2 nowUtc

/-- The committed store after a pass attempt: the pass result when it ran to
`commit`, the unchanged prior store when it aborted. -/
def passStore (feeds : List FetchResult) (store : List Article) (nowUtc : Int) :
    List Article :=
  (update_feed feeds store nowUtc).getD store

/-! ## Store queries (`ORDER BY published DESC LIMIT n`, `ilike`) -/

/-- The value SQLite compares and orders when sorting on the `published`
column: the stored wall-clock reading (`NULL` sorts below every value). -/
def pubKey (a : Article) : Option Int := a.published.map (·.wall)

/-- Comparison on stored `published` values, `NULL` smallest. -/
def keyLE : Option Int → Option Int → Bool
  | none, _ => true
  | some _, none => false
  | some x, some y => x ≤ y

/-- Insertion into a descending-ordered list (helper of the sort below):
the inserted element goes before the first element whose key is not
greater. -/
def insertDesc (a : Article) : List Article → List Article
  | [] => [a]
  | b :: t => if keyLE (pubKey b) (pubKey a) then a :: b :: t else b :: insertDesc a t

/-- One execution of `ORDER BY published DESC` over the rows in insertion
order, determinized as a stable sort so the queries stay executable.  The
query names no secondary sort key and SQLite leaves the relative order of
equal-key rows undefined, so only what every admissible result shares
(`isOrderedByPublishedDesc`) is guaranteed by the program. -/
def orderByPublishedDesc : List Article → List Article
  | [] => []
  | x :: xs => insertDesc x (orderByPublishedDesc xs)

/-- `Article.query.order_by(Article.published.desc()).limit(n).all()`. -/
def recentQ (store : List Article) (n : Nat) : List Article :=
  (orderByPublishedDesc store).take n

/-- SQL `LIKE` pattern matching (`%` = any run, `_` = any one character),
fuel-driven so that it is structurally recursive; every recursive call
shrinks `p.length + s.length`, so `likeMatch` below always supplies enough
fuel. -/
def likeMatchF : Nat → Str → Str → Bool
  | 0, _, _ => false
  | f + 1, p, s =>
    match p with
    | [] => s.isEmpty
    | c :: p2 =>
      if c = '%' then
        likeMatchF f p2 s ||
          (match s with
           | [] => false
           | _ :: s2 => likeMatchF f (c :: p2) s2)
      else
        match s with
        | [] => false
        | d :: s2 => if c = '_' then likeMatchF f p2 s2 else c = d && likeMatchF f p2 s2

/-- SQL `LIKE` pattern matching (`%` = any run, `_` = any one character). -/
def likeMatch (p s : Str) : Bool := likeMatchF (p.length + s.length + 1) p s

/-- `column.ilike(f'%{term}%')`: case-insensitive `LIKE` against the
wildcard-wrapped term. -/
def ilikeMatch (term x : Str) : Bool :=
  likeMatch (lowerStr ('%' :: (term ++ ['%']))) (lowerStr x)

/-- Lines 116-121: the filtered, ordered, limited search query. -/
def searchQ (store : List Article) (term : Str) (n : Nat) : List Article :=
  (orderByPublishedDesc
    (store.filter (fun a => ilikeMatch term a.title || ilikeMatch term a.summary))).take n

/-- Lines 111-123 of `rss_feed`: strip the `q` parameter (absent = `''`) and
select the articles: filtered search when nonempty, else the 10 most
recent. -/
def routeArticles (q : Str) (store : List Article) : List Article :=
  let search := pyStrip q
  if search.isEmpty then recentQ store 10 else searchQ store search 10

/-! ## RSS rendering (lines 126-154 of `rss_feed`) -/

/-- One decimal digit character. -/
def digitC (n : Nat) : Char :=
  match n with
  | 0 => '0' | 1 => '1' | 2 => '2' | 3 => '3' | 4 => '4'
  | 5 => '5' | 6 => '6' | 7 => '7' | 8 => '8' | _ => '9'

/-- Decimal digits of `n`, most significant first (fuel-driven). -/
def natChars (fuel n : Nat) : Str :=
  match fuel with
  | 0 => []
  | f + 1 => if n < 10 then [digitC n] else natChars f (n / 10) ++ [digitC (n % 10)]

/-- Decimal rendering of a natural number. -/
def natStr (n : Nat) : Str := natChars (n + 1) n

/-- Zero-padded two-digit field. -/
def pad2 (n : Nat) : Str := if n < 10 then '0' :: natStr n else natStr n

/-- The `%Y` field: zero-padded to four digits. -/
def pad4Int (i : Int) : Str :=
  if i < 0 then '-' :: natStr (-i).toNat
  else List.replicate (4 - (natStr i.toNat).length) '0' ++ natStr i.toNat

/-- The `%z` field of an aware datetime: `±HHMM`. -/
def offsetStr (offSec : Int) : Str :=
  let a := if offSec < 0 then -offSec else offSec
  (if offSec < 0 then '-' else '+') ::
    (pad2 (Int.ediv a 3600).toNat ++ pad2 (Int.ediv (Int.emod a 3600) 60).toNat)

/-- Line 130: `article.published.strftime('%a, %d %b %Y %H:%M:%S %z') if
article.published else ''` (`%z` renders as the empty string on a naive
datetime). -/
def rssDate : Option PyDateTime → Str
  | none => []
  | some d =>
    let c := civilOfSeconds d.wall
    let wd := weekdayNames.getD (weekdayOfSeconds d.wall) []
    let mon := monthNames.getD (c.mo - 1) []
    let z : Str :=
      match d.tz with
      | none => []
      | some tz => offsetStr (tzOffsetSec tz d.wall)
    wd ++ [','] ++ [' '] ++ pad2 c.d ++ [' '] ++ mon ++ [' '] ++ pad4Int c.y ++ [' '] ++
      pad2 c.h ++ [':'] ++ pad2 c.mi ++ [':'] ++ pad2 c.s ++ [' '] ++ z

/-- Literal chunk of the item f-string before the title. -/
def it1 : Str := "\n        <item>\n            <title>".toList

/-- Literal chunk between title and link. -/
def it2 : Str := "</title>\n            <link>".toList

/-- Literal chunk between link and the CDATA-wrapped summary. -/
def it3 : Str := "</link>\n            <description><![CDATA[".toList

/-- The CDATA terminator. -/
def cdEnd : Str := "]]>".toList

/-- Literal chunk between the CDATA terminator and the pubDate. -/
def it4 : Str := "</description>\n            <pubDate>".toList

/-- Literal chunk between pubDate and guid. -/
def it5 : Str := "</pubDate>\n            <guid>".toList

/-- Literal chunk after the guid. -/
def it6 : Str := "</guid>\n        </item>\n        ".toList

/-- Lines 132-140: one `<item>` element, interpolated without escaping. -/
def rssItem (a : Article) : Str :=
  it1 ++ a.title ++ it2 ++ a.link ++ it3 ++ a.summary ++ cdEnd ++ it4 ++
    rssDate a.published ++ it5 ++ a.link ++ it6

/-- The document template up to the joined items. -/
def docHead : Str :=
  ("<?xml version=\"1.0\" encoding=\"UTF-8\"?>\n<rss version=\"2.0\">\n  <channel>\n" ++
   "    <title>My Custom RSS Feed</title>\n" ++
   "    <link>http://yourdomain.com/rss</link>\n" ++
   "    <description>This is a custom RSS feed generated from our articles.</description>\n" ++
   "    ").toList

/-- The document template after the joined items. -/
def docTail : Str := "\n  </channel>\n</rss>\n    ".toList

/-- `''.join(...)`. -/
def joinStr : List Str → Str
  | [] => []
  | s :: rest => s ++ joinStr rest

/-- Lines 144-153: the complete response body. -/
def rssDocument (arts : List Article) : Str :=
  docHead ++ joinStr (arts.map rssItem) ++ docTail

/-- The `/rss` route: select the articles for the query and render them. -/
def rss_feed (q : Str) (store : List Article) : Str :=
  rssDocument (routeArticles q store)

/-! ## An XML well-formedness scanner

A one-character-at-a-time state machine over the document: it accepts when
every tag is properly closed in nesting order, text content holds no raw
`<` that fails to start a valid tag and no raw `&`, CDATA sections are
terminated, and processing instructions are closed.  It also counts how
many `channel` elements are opened. -/

/-- Scanner mode. -/
inductive XMode where
  | text
  | ltSeen
  | bang (k : Nat)
  | openName (acc : Str)
  | openRest (nm : Str)
  | openQuote (nm : Str)
  | selfSlash
  | closeName (acc : Str)
  | cdata (k : Nat)
  | pi (sawQ : Bool)
deriving DecidableEq

/-- Scanner state: liveness flag, stack of open element names, mode, and
count of opened `channel` elements. -/
structure XSt where
  ok : Bool
  stack : List Str
  mode : XMode
  chan : Nat
deriving DecidableEq

/-- Characters allowed in an element name. -/
def nameChar (c : Char) : Bool := c.isAlpha || c.isDigit

/-- What must follow `<!` for a CDATA section. -/
def cdataLit : Str := "[CDATA[".toList

/-- The failed state. -/
def xbad : XSt := ⟨false, [], .text, 0⟩

/-- One scanner step. -/
def xstep (s : XSt) (c : Char) : XSt :=
  if !s.ok then s else
  match s.mode with
  | .text =>
    if c = '<' then ⟨true, s.stack, .ltSeen, s.chan⟩
    else if c = '&' then xbad
    else s
  | .ltSeen =>
    if c = '!' then ⟨true, s.stack, .bang 0, s.chan⟩
    else if c = '/' then ⟨true, s.stack, .closeName [], s.chan⟩
    else if c = '?' then ⟨true, s.stack, .pi false, s.chan⟩
    else if nameChar c then ⟨true, s.stack, .openName [c], s.chan⟩
    else xbad
  | .bang k =>
    if cdataLit.getD k ' ' = c then
      (if k + 1 = cdataLit.length then ⟨true, s.stack, .cdata 0, s.chan⟩
       else ⟨true, s.stack, .bang (k + 1), s.chan⟩)
    else xbad
  | .openName acc =>
    if nameChar c then ⟨true, s.stack, .openName (acc ++ [c]), s.chan⟩
    else if c = '>' then
      ⟨true, acc :: s.stack, .text, s.chan + (if acc = "channel".toList then 1 else 0)⟩
    else if c = ' ' then ⟨true, s.stack, .openRest acc, s.chan⟩
    else if c = '/' then ⟨true, s.stack, .selfSlash, s.chan⟩
    else xbad
  | .openRest nm =>
    if c = '>' then
      ⟨true, nm :: s.stack, .text, s.chan + (if nm = "channel".toList then 1 else 0)⟩
    else if c = '"' then ⟨true, s.stack, .openQuote nm, s.chan⟩
    else if c = '/' then ⟨true, s.stack, .selfSlash, s.chan⟩
    else if c = '<' then xbad
    else s
  | .openQuote nm =>
    if c = '"' then ⟨true, s.stack, .openRest nm, s.chan⟩
    else if c = '<' then xbad
    else s
  | .selfSlash =>
    if c = '>' then ⟨true, s.stack, .text, s.chan⟩ else xbad
  | .closeName acc =>
    if nameChar c then ⟨true, s.stack, .closeName (acc ++ [c]), s.chan⟩
    else if c = '>' then
      match s.stack with
      | top :: rest => if top = acc then ⟨true, rest, .text, s.chan⟩ else xbad
      | [] => xbad
    else xbad
  | .cdata k =>
    if c = ']' then ⟨true, s.stack, .cdata (min (k + 1) 2), s.chan⟩
    else if c = '>' then
      (if k = 2 then ⟨true, s.stack, .text, s.chan⟩ else ⟨true, s.stack, .cdata 0, s.chan⟩)
    else ⟨true, s.stack, .cdata 0, s.chan⟩
  | .pi sawQ =>
    if c = '>' && sawQ then ⟨true, s.stack, .text, s.chan⟩
    else ⟨true, s.stack, .pi (c = '?'), s.chan⟩

/-- The scanner's starting state. -/
def xinit : XSt := ⟨true, [], .text, 0⟩

/-- Run the scanner over a document. -/
def xscan (doc : Str) : XSt := doc.foldl xstep xinit

/-- A document is well formed when the scanner survives, all tags are
closed, and it ends in text mode. -/
def wellFormedXml (doc : Str) : Bool :=
  let f := xscan doc
  f.ok && f.stack.isEmpty && f.mode == .text

/-- Number of `channel` elements the scanner saw opened. -/
def channelCount (doc : Str) : Nat := (xscan doc).chan

/-- Substring (contiguous) occurrence test. -/
def hasSub (pat : Str) : Str → Bool
  | [] => pat.isEmpty
  | c :: rest => pat.isPrefixOf (c :: rest) || hasSub pat rest

/-- Text content safe to interpolate raw into XML: no `<`, no `&`. -/
def safeText (s : Str) : Bool := s.all (fun c => !(c = '<' || c = '&'))

/-- An article whose unescaped interpolation cannot break the document:
title and link markup-free, summary free of the CDATA terminator. -/
def xmlSafeArticle (a : Article) : Bool :=
  safeText a.title && safeText a.link && !hasSub cdEnd a.summary

/-! ## Derived definitions used by the lemmas -/

/-- A character that cannot break out of XML text content. -/
def charSafe (c : Char) : Bool := !(c = '<' || c = '&')

/-- The descending order on rows: the left one's key is at least the right
one's. -/
def geB (a b : Article) : Prop := keyLE (pubKey b) (pubKey a) = true

/-- Exactly the guarantee `ORDER BY published DESC` gives for a row set: the
result is a permutation of the rows that is descending in the stored
`published` key.  The relative order of rows with equal keys is not part of
the contract. -/
def isOrderedByPublishedDesc (store result : List Article) : Prop :=
  result.Perm store ∧ List.Pairwise geB result

/-- The scanner state inside `<channel>` (between items). -/
abbrev chanSt : XSt := ⟨true, ["channel".toList, "rss".toList], .text, 1⟩

/-- The scanner state inside `<title>` of an item. -/
abbrev stTitle : XSt := ⟨true, ["title".toList, "item".toList, "channel".toList, "rss".toList], .text, 1⟩

/-- The scanner state inside `<link>` of an item. -/
abbrev stLink : XSt := ⟨true, ["link".toList, "item".toList, "channel".toList, "rss".toList], .text, 1⟩

/-- The scanner state inside the CDATA section of an item's description. -/
abbrev stDesc : List Str := ["description".toList, "item".toList, "channel".toList, "rss".toList]

/-- The scanner state inside `<pubDate>` of an item. -/
abbrev stPub : XSt := ⟨true, ["pubDate".toList, "item".toList, "channel".toList, "rss".toList], .text, 1⟩

/-- The scanner state inside `<guid>` of an item. -/
abbrev stGuid : XSt := ⟨true, ["guid".toList, "item".toList, "channel".toList, "rss".toList], .text, 1⟩

/-! ## Concrete data used by witnesses and counterexamples -/

/-- A minimal healthy entry: title and link present, no dates, no summary. -/
def eW : RawEntry := ⟨some ("t".toList), some ("l".toList), none, none, none, none⟩

/-- The article `eW` ingests to at clock 0. -/
def aW : Article := ⟨"t".toList, "l".toList, some (utcnow 0), []⟩

/-- An entry with a `pubDate` field that does not parse and a valid
time-tuple. -/
def eC6 : RawEntry :=
  ⟨some ("t".toList), some ("l".toList), some ("garbage".toList),
   some (some ⟨2020, 1, 1, 0, 0, 0⟩), none, none⟩

/-- An entry with a well-formed `pubDate` field and a valid time-tuple. -/
def eC6good : RawEntry :=
  ⟨some ("t".toList), some ("l".toList),
   some ("Mon, 06 Jan 2020 12:30:45 +0100".toList),
   some (some ⟨2020, 1, 1, 0, 0, 0⟩), none, none⟩

/-- An entry with no link field. -/
def eNoLink : RawEntry := ⟨some ("t".toList), none, none, none, none, none⟩

/-- An entry with a fresh link but no title field. -/
def eNoTitle : RawEntry := ⟨none, some ("l2".toList), none, none, none, none⟩

/-- An entry whose link duplicates `aW`'s and that has no title field. -/
def eNoTitleDup : RawEntry := ⟨none, some ("l".toList), none, none, none, none⟩

/-- The article `eW` ingests to at clock 100. -/
def aW100 : Article := ⟨"t".toList, "l".toList, some (utcnow 100), []⟩

/-- A stored article with some `published` key, inserted before `aT2`. -/
def aT1 : Article := ⟨"t1".toList, "l1".toList, some ⟨50, none⟩, []⟩

/-- A distinct stored article with the same `published` key as `aT1`,
inserted after it. -/
def aT2 : Article := ⟨"t2".toList, "l2".toList, some ⟨50, none⟩, []⟩

/-- A stored article whose title is a single letter (for the `LIKE`
wildcard counterexample). -/
def aU : Article := ⟨"a".toList, "lu".toList, some ⟨0, none⟩, []⟩

/-- A stored article whose title contains a raw `<`. -/
def aBad : Article := ⟨"a <3 b".toList, "http://x/1".toList, none, "ok".toList⟩

/-- A markup-free stored article. -/
def aGood : Article :=
  ⟨"Storm warning issued".toList, "http://x/1".toList,
   some ⟨secondsOfCivil ⟨2020, 1, 6, 12, 30, 45⟩, some Tz.amsterdam⟩,
   "Heavy rain expected".toList⟩

/-! ## General list and character lemmas -/

lemma isPrefixOf_eq (p s : Str) : p.isPrefixOf s = true ↔ p <+: s := by
  induction p generalizing s with
  | nil => simp [List.isPrefixOf]
  | cons c p ih =>
    cases s with
    | nil => simp [List.isPrefixOf]
    | cons d s =>
      simp only [List.isPrefixOf, Bool.and_eq_true, beq_iff_eq, ih]
      constructor
      · rintro ⟨rfl, t, rfl⟩
        exact ⟨t, rfl⟩
      · rintro ⟨t, ht⟩
        obtain ⟨rfl, h2⟩ := List.cons.injEq .. ▸ ht
        exact ⟨rfl, t, h2⟩

lemma sub_append_of_right {l b : Str} (a : Str) (h : l <:+: b) : l <:+: a ++ b := by
  obtain ⟨u, v, rfl⟩ := h
  exact ⟨a ++ u, v, by simp⟩

lemma hasSub_iff (p s : Str) : hasSub p s = true ↔ p <:+: s := by
  induction s with
  | nil =>
    simp only [hasSub, List.isEmpty_iff]
    constructor
    · rintro rfl; exact ⟨[], [], rfl⟩
    · rintro ⟨u, v, huv⟩
      cases u <;> simp_all
  | cons c s ih =>
    simp only [hasSub, Bool.or_eq_true, isPrefixOf_eq, ih]
    constructor
    · rintro (⟨t, ht⟩ | hs)
      · exact ⟨[], t, by simpa using ht⟩
      · exact sub_append_of_right [c] hs
    · rintro ⟨u, v, huv⟩
      cases u with
      | nil => exact Or.inl ⟨v, by simpa using huv⟩
      | cons x u =>
        right
        obtain ⟨-, h2⟩ := List.cons.injEq .. ▸ huv
        exact ⟨u, v, h2⟩



lemma safeText_all (s : Str) : safeText s = s.all charSafe := rfl

lemma safeText_append (x y : Str) :
    safeText (x ++ y) = (safeText x && safeText y) := by
  simp [safeText_all, List.all_append]

lemma safeText_cons (c : Char) (s : Str) :
    safeText (c :: s) = (charSafe c && safeText s) := rfl

lemma digitC_safe (n : Nat) : charSafe (digitC n) = true := by
  unfold digitC
  split <;> decide

lemma safeText_singleton (c : Char) (h : charSafe c = true) : safeText [c] = true := by
  rw [safeText_cons, h]; rfl

lemma natChars_safe (fuel n : Nat) : safeText (natChars fuel n) = true := by
  induction fuel generalizing n with
  | zero => rfl
  | succ f ih =>
    unfold natChars
    split
    · exact safeText_singleton _ (digitC_safe n)
    · rw [safeText_append, ih, safeText_singleton _ (digitC_safe (n % 10))]; rfl

lemma natStr_safe (n : Nat) : safeText (natStr n) = true := natChars_safe _ _

lemma pad2_safe (n : Nat) : safeText (pad2 n) = true := by
  unfold pad2
  split
  · rw [safeText_cons, natStr_safe]; rfl
  · exact natStr_safe n

lemma replicate_safe (k : Nat) (c : Char) (h : charSafe c = true) :
    safeText (List.replicate k c) = true := by
  induction k with
  | zero => rfl
  | succ m ih => simp_all [safeText_all, List.replicate]

lemma pad4Int_safe (i : Int) : safeText (pad4Int i) = true := by
  unfold pad4Int
  split
  · rw [safeText_cons, natStr_safe]; rfl
  · rw [safeText_append, replicate_safe _ _ (by decide), natStr_safe]; rfl

lemma offsetStr_safe (o : Int) : safeText (offsetStr o) = true := by
  unfold offsetStr
  rw [safeText_cons, safeText_append, pad2_safe, pad2_safe]
  have : charSafe (if o < 0 then '-' else '+') = true := by split <;> decide
  rw [this]
  rfl

lemma getD_safe (names : List Str) (i : Nat) (d : Str)
    (h : ∀ x ∈ names, safeText x = true) (hd : safeText d = true) :
    safeText (names.getD i d) = true := by
  induction names generalizing i with
  | nil => simpa [List.getD]
  | cons x rest ih =>
    cases i with
    | zero => simpa using h x (by simp)
    | succ j =>
      simpa using ih j (fun y hy => h y (by simp [hy]))

lemma rssDate_safe (od : Option PyDateTime) : safeText (rssDate od) = true := by
  cases od with
  | none => rfl
  | some d =>
    simp only [rssDate, safeText_append, Bool.and_eq_true]
    repeat' apply And.intro
    all_goals
      first
      | exact pad2_safe _
      | exact pad4Int_safe _
      | exact getD_safe _ _ _ (by decide) (by decide)
      | (cases d.tz with
         | none => rfl
         | some tz => exact offsetStr_safe _)
      | decide

/-! ## Lemmas about lower-casing -/

lemma lowerChar_pct (c : Char) : lowerChar c = '%' ↔ c = '%' := by
  unfold lowerChar
  split <;> first | exact Iff.rfl | decide

lemma lowerChar_uscore (c : Char) : lowerChar c = '_' ↔ c = '_' := by
  unfold lowerChar
  split <;> first | exact Iff.rfl | decide

lemma lowerStr_noWild {t : Str} (h1 : '%' ∉ t) (h2 : '_' ∉ t) :
    '%' ∉ lowerStr t ∧ '_' ∉ lowerStr t := by
  constructor
  · intro hm
    obtain ⟨a, ha, hla⟩ := List.mem_map.mp hm
    exact h1 ((lowerChar_pct a).mp hla ▸ ha)
  · intro hm
    obtain ⟨a, ha, hla⟩ := List.mem_map.mp hm
    exact h2 ((lowerChar_uscore a).mp hla ▸ ha)

/-! ## Lemmas about the descending stable sort -/



lemma keyLE_refl (x : Option Int) : keyLE x x = true := by
  cases x <;> simp [keyLE]

lemma keyLE_total (x y : Option Int) : keyLE x y = true ∨ keyLE y x = true := by
  cases x <;> cases y <;> simp [keyLE] <;> omega

lemma keyLE_of_not {x y : Option Int} (h : keyLE x y = false) : keyLE y x = true := by
  rcases keyLE_total x y with h1 | h1
  · rw [h1] at h; cases h
  · exact h1

lemma keyLE_trans {x y z : Option Int} (h1 : keyLE x y = true) (h2 : keyLE y z = true) :
    keyLE x z = true := by
  cases x <;> cases y <;> cases z <;> simp_all [keyLE] <;> omega

lemma keyLE_ne {x y : Option Int} (h : keyLE x y = false) : ¬x = y := by
  rintro rfl
  rw [keyLE_refl] at h
  cases h

lemma insertDesc_perm (a : Article) (l : List Article) :
    (insertDesc a l).Perm (a :: l) := by
  induction l with
  | nil => exact List.Perm.refl _
  | cons b t ih =>
    unfold insertDesc
    split
    · exact List.Perm.refl _
    · exact (ih.cons b).trans (List.Perm.swap a b t)

lemma orderBy_perm (s : List Article) : (orderByPublishedDesc s).Perm s := by
  induction s with
  | nil => exact List.Perm.refl _
  | cons x xs ih => exact (insertDesc_perm x _).trans (ih.cons x)

lemma mem_insertDesc {y a : Article} {l : List Article} :
    y ∈ insertDesc a l ↔ y = a ∨ y ∈ l := by
  rw [(insertDesc_perm a l).mem_iff, List.mem_cons]

lemma mem_orderBy {y : Article} {s : List Article} :
    y ∈ orderByPublishedDesc s ↔ y ∈ s := (orderBy_perm s).mem_iff

lemma sorted_insertDesc {a : Article} {l : List Article} (h : List.Pairwise geB l) :
    List.Pairwise geB (insertDesc a l) := by
  induction l with
  | nil => simp [insertDesc, geB]
  | cons b t ih =>
    unfold insertDesc
    split
    · rename_i h1
      refine List.Pairwise.cons ?_ h
      intro z hz
      rcases List.mem_cons.mp hz with rfl | hzt
      · exact h1
      · exact keyLE_trans (List.rel_of_pairwise_cons h hzt) h1
    · rename_i h1
      refine List.Pairwise.cons ?_ (ih (List.Pairwise.of_cons h))
      intro z hz
      rcases mem_insertDesc.mp hz with rfl | hzt
      · exact keyLE_of_not (Bool.not_eq_true _ ▸ h1)
      · exact List.rel_of_pairwise_cons h hzt

lemma sorted_orderBy (s : List Article) : List.Pairwise geB (orderByPublishedDesc s) := by
  induction s with
  | nil => exact List.Pairwise.nil
  | cons x xs ih => exact sorted_insertDesc ih

lemma orderBy_admissible (s : List Article) :
    isOrderedByPublishedDesc s (orderByPublishedDesc s) :=
  ⟨orderBy_perm s, sorted_orderBy s⟩

lemma revTied_admissible : isOrderedByPublishedDesc [aT1, aT2] [aT2, aT1] := by
  refine ⟨List.Perm.swap aT1 aT2 [], List.Pairwise.cons ?_ (List.Pairwise.cons ?_ List.Pairwise.nil)⟩
  · intro z hz
    have hz1 : z = aT1 := List.mem_singleton.mp hz
    subst hz1
    show keyLE (pubKey aT1) (pubKey aT2) = true
    decide
  · intro z hz
    exact absurd hz (List.not_mem_nil z)

/-! ## Lemmas about the ingestion pass -/

lemma pre_trans {s1 s2 s3 : List Article} (h1 : s1 <+: s2) (h2 : s2 <+: s3) : s1 <+: s3 := by
  obtain ⟨t, rfl⟩ := h1
  obtain ⟨u, rfl⟩ := h2
  exact ⟨t ++ u, by simp⟩

lemma pre_mapLink {l : Str} {s s2 : List Article} (h : s <+: s2)
    (hm : l ∈ s.map Article.link) : l ∈ s2.map Article.link := by
  obtain ⟨t, rfl⟩ := h
  simp only [List.map_append, List.mem_append]
  exact Or.inl hm

lemma processEntry_pre {s s2 : List Article} {e : RawEntry} {now : Int}
    (h : processEntry s e now = some s2) : s <+: s2 := by
  cases hl : e.link with
  | none => simp [processEntry, hl] at h
  | some l =>
    simp only [processEntry, hl] at h
    split at h
    · cases h
      exact ⟨[], List.append_nil s⟩
    · cases ht : e.title with
      | none => simp [ht] at h
      | some t =>
        simp only [ht] at h
        cases h
        exact ⟨_, rfl⟩

lemma processEntry_nodup {s s2 : List Article} {e : RawEntry} {now : Int}
    (h : processEntry s e now = some s2) (hn : (s.map Article.link).Nodup) :
    (s2.map Article.link).Nodup := by
  cases hl : e.link with
  | none => simp [processEntry, hl] at h
  | some l =>
    simp only [processEntry, hl] at h
    split at h
    · cases h
      exact hn
    · rename_i hany
      cases ht : e.title with
      | none => simp [ht] at h
      | some t =>
        simp only [ht] at h
        cases h
        rw [List.map_append, List.nodup_append]
        refine ⟨hn, List.nodup_singleton _, ?_⟩
        intro x hx hx1
        simp only [List.map_cons, List.map_nil, List.mem_singleton] at hx1
        subst hx1
        obtain ⟨a, ha, hal⟩ := List.mem_map.mp hx
        have := List.any_eq_false.mp (Bool.not_eq_true _ ▸ hany) a ha
        simp only [beq_iff_eq] at this
        exact this hal

lemma processEntry_link {s s2 : List Article} {e : RawEntry} {now : Int} {l : Str}
    (h : processEntry s e now = some s2) (hl : e.link = some l) :
    l ∈ s2.map Article.link := by
  simp only [processEntry, hl] at h
  split at h
  · rename_i hany
    obtain ⟨a, ha, hal⟩ := List.any_eq_true.mp hany
    cases h
    exact List.mem_map.mpr ⟨a, ha, beq_iff_eq.mp hal⟩
  · cases ht : e.title with
    | none => simp [ht] at h
    | some t =>
      simp only [ht] at h
      cases h
      rw [List.map_append]
      simp

lemma processEntries_pre {s s2 : List Article} {es : List RawEntry} {now : Int}
    (h : processEntries s es now = some s2) : s <+: s2 := by
  induction es generalizing s with
  | nil => exact (Option.some.injEq .. ▸ h) ▸ ⟨[], List.append_nil s⟩
  | cons e rest ih =>
    unfold processEntries at h
    cases h1 : processEntry s e now with
    | none => rw [h1] at h; cases h
    | some s1 =>
      rw [h1] at h
      exact pre_trans (processEntry_pre h1) (ih h)

lemma processEntries_nodup {s s2 : List Article} {es : List RawEntry} {now : Int}
    (h : processEntries s es now = some s2) (hn : (s.map Article.link).Nodup) :
    (s2.map Article.link).Nodup := by
  induction es generalizing s with
  | nil => exact (Option.some.injEq .. ▸ h) ▸ hn
  | cons e rest ih =>
    unfold processEntries at h
    cases h1 : processEntry s e now with
    | none => rw [h1] at h; cases h
    | some s1 =>
      rw [h1] at h
      exact ih h (processEntry_nodup h1 hn)

lemma processEntries_link {s s2 : List Article} {es : List RawEntry} {now : Int}
    {e : RawEntry} {l : Str} (h : processEntries s es now = some s2)
    (he : e ∈ es) (hl : e.link = some l) : l ∈ s2.map Article.link := by
  induction es generalizing s with
  | nil => cases he
  | cons e0 rest ih =>
    unfold processEntries at h
    cases h1 : processEntry s e0 now with
    | none => rw [h1] at h; cases h
    | some s1 =>
      rw [h1] at h
      rcases List.mem_cons.mp he with rfl | hrest
      · exact pre_mapLink (processEntries_pre h) (processEntry_link h1 hl)
      · exact ih h hrest

lemma update_feed_pre {feeds : List FetchResult} {s s2 : List Article} {now : Int}
    (h : update_feed feeds s now = some s2) : s <+: s2 := by
  induction feeds generalizing s with
  | nil => exact (Option.some.injEq .. ▸ h) ▸ ⟨[], List.append_nil s⟩
  | cons f rest ih =>
    cases f with
    | exc => cases h
    | page es =>
      unfold update_feed at h
      split at h
      · exact ih h
      · cases h1 : processEntries s es now with
        | none => rw [h1] at h; cases h
        | some s1 =>
          rw [h1] at h
          exact pre_trans (processEntries_pre h1) (ih h)

lemma update_feed_nodup {feeds : List FetchResult} {s s2 : List Article} {now : Int}
    (h : update_feed feeds s now = some s2) (hn : (s.map Article.link).Nodup) :
    (s2.map Article.link).Nodup := by
  induction feeds generalizing s with
  | nil => exact (Option.some.injEq .. ▸ h) ▸ hn
  | cons f rest ih =>
    cases f with
    | exc => cases h
    | page es =>
      unfold update_feed at h
      split at h
      · exact ih h hn
      · cases h1 : processEntries s es now with
        | none => rw [h1] at h; cases h
        | some s1 =>
          rw [h1] at h
          exact ih h (processEntries_nodup h1 hn)

lemma update_feed_link {feeds : List FetchResult} {s s2 : List Article} {now : Int}
    {e : RawEntry} {l : Str} (h : update_feed feeds s now = some s2)
    (he : e ∈ feedEntries feeds) (hl : e.link = some l) : l ∈ s2.map Article.link := by
  induction feeds generalizing s with
  | nil => cases he
  | cons f rest ih =>
    cases f with
    | exc => cases h
    | page es =>
      unfold update_feed at h
      have hee : e ∈ es ++ feedEntries rest := he
      split at h
      · rename_i hemp
        rcases List.mem_append.mp hee with hes | hrest
        · rw [List.isEmpty_iff.mp hemp] at hes; cases hes
        · exact ih h hrest
      · cases h1 : processEntries s es now with
        | none => rw [h1] at h; cases h
        | some s1 =>
          rw [h1] at h
          rcases List.mem_append.mp hee with hes | hrest
          · exact pre_mapLink (update_feed_pre h) (processEntries_link h1 hes hl)
          · exact ih h hrest

lemma countP_link_eq_one {l : Str} {s : List Article}
    (hn : (s.map Article.link).Nodup) (hm : l ∈ s.map Article.link) :
    s.countP (fun a => a.link == l) = 1 := by
  induction s with
  | nil => cases hm
  | cons a t ih =>
    simp only [List.map_cons, List.nodup_cons] at hn
    rw [List.countP_cons]
    rcases List.mem_cons.mp hm with rfl | hmt
    · have h0 : t.countP (fun x => x.link == a.link) = 0 := by
        rw [List.countP_eq_zero]
        intro x hx
        simp only [beq_iff_eq]
        intro hxl
        exact hn.1 (List.mem_map.mpr ⟨x, hx, hxl⟩)
      simp [h0]
    · have hne : (a.link == l) = false := by
        rw [beq_eq_false_iff_ne]
        intro hh
        exact hn.1 (hh ▸ hmt)
      simp [hne, ih hn.2 hmt]

/-! ## Lemmas about `LIKE` matching -/

lemma likeMatchF_congr : ∀ f1 f2 : Nat, ∀ p s : Str,
    p.length + s.length < f1 → p.length + s.length < f2 →
    likeMatchF f1 p s = likeMatchF f2 p s := by
  intro f1
  induction f1 with
  | zero => intro f2 p s h1 h2; exact absurd h1 (by omega)
  | succ g ih =>
    intro f2 p s h1 h2
    cases f2 with
    | zero => exact absurd h2 (by omega)
    | succ g2 =>
      cases p with
      | nil => simp [likeMatchF]
      | cons c p2 =>
        simp only [List.length_cons] at h1 h2
        simp only [likeMatchF]
        by_cases hc : c = '%'
        · subst hc
          simp only [if_pos rfl]
          have e1 : likeMatchF g p2 s = likeMatchF g2 p2 s :=
            ih g2 p2 s (by omega) (by omega)
          cases s with
          | nil => simp [e1]
          | cons d s2 =>
            have e2 : likeMatchF g ('%' :: p2) s2 = likeMatchF g2 ('%' :: p2) s2 :=
              ih g2 ('%' :: p2) s2 (by simp only [List.length_cons] at h1 ⊢; omega)
                (by simp only [List.length_cons] at h2 ⊢; omega)
            simp [e1, e2]
        · simp only [if_neg hc]
          cases s with
          | nil => rfl
          | cons d s2 =>
            simp only [List.length_cons] at h1 h2
            have e : likeMatchF g p2 s2 = likeMatchF g2 p2 s2 :=
              ih g2 p2 s2 (by omega) (by omega)
            by_cases hu : c = '_' <;> simp [hu, e]

lemma likeMatchF_eq {f : Nat} {p s : Str} (h : p.length + s.length < f) :
    likeMatchF f p s = likeMatch p s :=
  likeMatchF_congr f (p.length + s.length + 1) p s h (by omega)

lemma likeMatchF_pct_cons (f : Nat) (p : Str) (d : Char) (s : Str) :
    likeMatchF (f + 1) ('%' :: p) (d :: s) =
      (likeMatchF f p (d :: s) || likeMatchF f ('%' :: p) s) := rfl

lemma likeMatchF_pct_nil (f : Nat) (p : Str) :
    likeMatchF (f + 1) ('%' :: p) [] = likeMatchF f p [] := by
  show (likeMatchF f p [] || false) = _
  simp

lemma likeMatchF_lit_nil (f : Nat) {c : Char} (p : Str) (hc : c ≠ '%') :
    likeMatchF (f + 1) (c :: p) [] = false := by
  simp only [likeMatchF, if_neg hc]

lemma likeMatchF_lit_cons (f : Nat) {c : Char} (p : Str) (d : Char) (s : Str)
    (hc : c ≠ '%') (hu : c ≠ '_') :
    likeMatchF (f + 1) (c :: p) (d :: s) = (c = d && likeMatchF f p s) := by
  simp only [likeMatchF, if_neg hc, if_neg hu]

lemma likeMatch_nil_eq (s : Str) : likeMatch [] s = s.isEmpty := rfl

lemma likeMatch_pct_nil (p : Str) : likeMatch ('%' :: p) [] = likeMatch p [] := by
  unfold likeMatch
  rw [likeMatchF_pct_nil]
  exact likeMatchF_eq (by simp)

lemma likeMatch_pct_cons (p : Str) (d : Char) (s : Str) :
    likeMatch ('%' :: p) (d :: s) = (likeMatch p (d :: s) || likeMatch ('%' :: p) s) := by
  unfold likeMatch
  rw [likeMatchF_pct_cons]
  rw [likeMatchF_eq (by simp only [List.length_cons]; omega),
    likeMatchF_eq (by simp only [List.length_cons]; omega)]
  rfl

lemma likeMatch_lit_nil {c : Char} (p : Str) (hc : c ≠ '%') :
    likeMatch (c :: p) [] = false := by
  unfold likeMatch
  rw [likeMatchF_lit_nil _ _ hc]

lemma likeMatch_lit_cons {c : Char} (p : Str) (d : Char) (s : Str)
    (hc : c ≠ '%') (hu : c ≠ '_') :
    likeMatch (c :: p) (d :: s) = (c = d && likeMatch p s) := by
  unfold likeMatch
  rw [likeMatchF_lit_cons _ _ _ _ hc hu]
  rw [likeMatchF_eq (by simp only [List.length_cons]; omega)]
  rfl

lemma likeMatch_pctOnly (s : Str) : likeMatch ['%'] s = true := by
  induction s with
  | nil => rw [likeMatch_pct_nil, likeMatch_nil_eq]; rfl
  | cons d s ih => rw [likeMatch_pct_cons, ih]; simp

lemma suf_nil_iff (t : Str) : t <:+ ([] : Str) ↔ t = [] := by
  constructor
  · rintro ⟨u, hu⟩
    exact (List.append_eq_nil.mp hu).2
  · rintro rfl
    exact ⟨[], rfl⟩

lemma suf_cons_iff (t : Str) (d : Char) (s : Str) :
    t <:+ (d :: s) ↔ t = d :: s ∨ t <:+ s := by
  constructor
  · rintro ⟨u, hu⟩
    cases u with
    | nil => exact Or.inl (by simpa using hu)
    | cons x u2 =>
      right
      obtain ⟨-, h2⟩ := List.cons.injEq .. ▸ hu
      exact ⟨u2, h2⟩
  · rintro (rfl | ⟨u, hu⟩)
    · exact ⟨[], rfl⟩
    · exact ⟨d :: u, by simp [hu]⟩

lemma likeMatch_pct_suffix (p s : Str) :
    likeMatch ('%' :: p) s = true ↔ ∃ t, t <:+ s ∧ likeMatch p t = true := by
  induction s with
  | nil =>
    rw [likeMatch_pct_nil]
    constructor
    · intro h
      exact ⟨[], ⟨[], rfl⟩, h⟩
    · rintro ⟨t, ht, hm⟩
      rw [(suf_nil_iff t).mp ht] at hm
      exact hm
  | cons d s ih =>
    rw [likeMatch_pct_cons, Bool.or_eq_true, ih]
    constructor
    · rintro (h | ⟨t, ht, hm⟩)
      · exact ⟨d :: s, ⟨[], rfl⟩, h⟩
      · exact ⟨t, (suf_cons_iff ..).mpr (Or.inr ht), hm⟩
    · rintro ⟨t, ht, hm⟩
      rcases (suf_cons_iff ..).mp ht with rfl | hts
      · exact Or.inl hm
      · exact Or.inr ⟨t, hts, hm⟩

lemma consPre_iff (c : Char) (p : Str) (d : Char) (s : Str) :
    (c :: p) <+: (d :: s) ↔ c = d ∧ p <+: s := by
  constructor
  · rintro ⟨t, ht⟩
    obtain ⟨h1, h2⟩ := List.cons.injEq .. ▸ ht
    exact ⟨h1, t, h2⟩
  · rintro ⟨rfl, t, ht⟩
    exact ⟨t, by simp [ht]⟩

lemma likeMatch_lit_pct {p : Str} (h1 : '%' ∉ p) (h2 : '_' ∉ p) (s : Str) :
    likeMatch (p ++ ['%']) s = true ↔ p <+: s := by
  induction p generalizing s with
  | nil =>
    simp only [List.nil_append, likeMatch_pctOnly]
    simp
  | cons c p2 ih =>
    have hc : c ≠ '%' := fun hh => h1 (hh ▸ List.mem_cons_self c p2)
    have hu : c ≠ '_' := fun hh => h2 (hh ▸ List.mem_cons_self c p2)
    have h1t : '%' ∉ p2 := fun hh => h1 (List.mem_cons_of_mem c hh)
    have h2t : '_' ∉ p2 := fun hh => h2 (List.mem_cons_of_mem c hh)
    cases s with
    | nil =>
      rw [List.cons_append, likeMatch_lit_nil _ hc]
      simp
    | cons d s2 =>
      rw [List.cons_append, likeMatch_lit_cons _ _ _ hc hu, consPre_iff,
        Bool.and_eq_true, decide_eq_true_eq, ih h1t h2t]

lemma likeMatch_wrapped {p : Str} (h1 : '%' ∉ p) (h2 : '_' ∉ p) (s : Str) :
    likeMatch ('%' :: (p ++ ['%'])) s = true ↔ p <:+: s := by
  rw [likeMatch_pct_suffix]
  constructor
  · rintro ⟨t, ⟨u, rfl⟩, hm⟩
    obtain ⟨v, rfl⟩ := (likeMatch_lit_pct h1 h2 t).mp hm
    exact ⟨u, v, by simp⟩
  · rintro ⟨u, v, rfl⟩
    exact ⟨p ++ v, ⟨u, by simp⟩, (likeMatch_lit_pct h1 h2 _).mpr ⟨v, rfl⟩⟩

lemma ilikeMatch_eq_hasSub {t : Str} (h1 : '%' ∉ t) (h2 : '_' ∉ t) (x : Str) :
    ilikeMatch t x = hasSub (lowerStr t) (lowerStr x) := by
  obtain ⟨g1, g2⟩ := lowerStr_noWild h1 h2
  rw [Bool.eq_iff_iff, hasSub_iff]
  show likeMatch (lowerStr ('%' :: (t ++ ['%']))) (lowerStr x) = true ↔ _
  have : lowerStr ('%' :: (t ++ ['%'])) = '%' :: (lowerStr t ++ ['%']) := by
    simp [lowerStr, List.map_append]
    rfl
  rw [this, likeMatch_wrapped g1 g2]

/-! ## Lemmas about the XML scanner -/

lemma sub_cons {l b : Str} (c : Char) (h : l <:+: b) : l <:+: c :: b :=
  sub_append_of_right [c] h

lemma fold_text_safe (t : Str) (stack : List Str) (ch : Nat) (h : safeText t = true) :
    List.foldl xstep ⟨true, stack, .text, ch⟩ t = ⟨true, stack, .text, ch⟩ := by
  induction t with
  | nil => rfl
  | cons c rest ih =>
    rw [safeText_cons, Bool.and_eq_true] at h
    have hc : ¬(c = '<' ∨ c = '&') := by
      have := h.1
      unfold charSafe at this
      simpa using this
    have hc1 : ¬(c = '<') := fun hh => hc (Or.inl hh)
    have hc2 : ¬(c = '&') := fun hh => hc (Or.inr hh)
    have step : xstep ⟨true, stack, .text, ch⟩ c = ⟨true, stack, .text, ch⟩ := by
      simp [xstep, hc1, hc2]
    rw [List.foldl_cons, step, ih h.2]

lemma fold_cdata (t : Str) : ∀ (k : Nat) (stack : List Str) (ch : Nat), k ≤ 2 →
    ¬(cdEnd <:+: (List.replicate k ']' ++ t)) →
    ∃ k2, k2 ≤ 2 ∧
      List.foldl xstep ⟨true, stack, .cdata k, ch⟩ t = ⟨true, stack, .cdata k2, ch⟩ := by
  induction t with
  | nil => exact fun k stack ch hk _ => ⟨k, hk, rfl⟩
  | cons c rest ih =>
    intro k stack ch hk hsub
    rw [List.foldl_cons]
    by_cases hc : c = ']'
    · subst hc
      have step : xstep ⟨true, stack, .cdata k, ch⟩ ']' =
          ⟨true, stack, .cdata (min (k + 1) 2), ch⟩ := by simp [xstep]
      rw [step]
      refine ih (min (k + 1) 2) stack ch (by omega) ?_
      intro hbad
      apply hsub
      have hrepl : List.replicate k ']' ++ ']' :: rest =
          List.replicate (k + 1) ']' ++ rest := by
        rw [List.replicate_succ']
        simp
      rw [hrepl]
      rcases Nat.lt_or_ge k 2 with hlt | hge
      · rwa [Nat.min_eq_left (by omega)] at hbad
      · have hk2 : k = 2 := by omega
        subst hk2
        rw [Nat.min_eq_right (by omega)] at hbad
        exact sub_cons ']' hbad
    · by_cases hg : c = '>'
      · subst hg
        have hkne : k ≠ 2 := by
          intro hk2
          subst hk2
          exact hsub ⟨[], rest, rfl⟩
        have step : xstep ⟨true, stack, .cdata k, ch⟩ '>' =
            ⟨true, stack, .cdata 0, ch⟩ := by
          simp [xstep, hkne]
        rw [step]
        refine ih 0 stack ch (by omega) ?_
        intro hbad
        exact hsub (sub_append_of_right _ (sub_cons '>' (by simpa using hbad)))
      · have step : xstep ⟨true, stack, .cdata k, ch⟩ c = ⟨true, stack, .cdata 0, ch⟩ := by
          simp [xstep, hc, hg]
        rw [step]
        refine ih 0 stack ch (by omega) ?_
        intro hbad
        exact hsub (sub_append_of_right _ (sub_cons c (by simpa using hbad)))

lemma fold_cdata_close (k : Nat) (hk : k ≤ 2) (stack : List Str) (ch : Nat) :
    List.foldl xstep ⟨true, stack, .cdata k, ch⟩ cdEnd = ⟨true, stack, .text, ch⟩ := by
  interval_cases k <;> simp [cdEnd, xstep]

lemma fold_xbad (t : Str) : List.foldl xstep xbad t = xbad := by
  induction t with
  | nil => rfl
  | cons c rest ih => rw [List.foldl_cons, show xstep xbad c = xbad from rfl, ih]













lemma fold_it1 : List.foldl xstep chanSt it1 = stTitle := by decide

lemma fold_it2 : List.foldl xstep stTitle it2 = stLink := by decide

lemma fold_it3 : List.foldl xstep stLink it3 = ⟨true, stDesc, .cdata 0, 1⟩ := by decide

lemma fold_it4 : List.foldl xstep ⟨true, stDesc, .text, 1⟩ it4 = stPub := by decide

lemma fold_it5 : List.foldl xstep stPub it5 = stGuid := by decide

lemma fold_it6 : List.foldl xstep stGuid it6 = chanSt := by decide

lemma fold_rssItem (a : Article) (hsafe : xmlSafeArticle a = true) :
    List.foldl xstep chanSt (rssItem a) = chanSt := by
  unfold xmlSafeArticle at hsafe
  rw [Bool.and_eq_true, Bool.and_eq_true] at hsafe
  obtain ⟨⟨hT, hL⟩, hS⟩ := hsafe
  have hSub : ¬(cdEnd <:+: a.summary) := by
    rw [← hasSub_iff]
    simp only [Bool.not_eq_true'] at hS
    simp [hS]
  obtain ⟨k2, hk2, hfold⟩ := fold_cdata a.summary 0 stDesc 1 (by omega) (by simpa using hSub)
  unfold rssItem
  simp only [List.foldl_append]
  rw [fold_it1, fold_text_safe _ _ _ hT, fold_it2, fold_text_safe _ _ _ hL, fold_it3,
    hfold, fold_cdata_close k2 hk2, fold_it4, fold_text_safe _ _ _ (rssDate_safe _),
    fold_it5, fold_text_safe _ _ _ hL, fold_it6]

lemma fold_items (arts : List Article) (hsafe : ∀ a ∈ arts, xmlSafeArticle a = true) :
    List.foldl xstep chanSt (joinStr (arts.map rssItem)) = chanSt := by
  induction arts with
  | nil => rfl
  | cons a rest ih =>
    show List.foldl xstep chanSt (rssItem a ++ joinStr (rest.map rssItem)) = chanSt
    rw [List.foldl_append, fold_rssItem a (hsafe a (by simp)),
      ih (fun x hx => hsafe x (by simp [hx]))]

lemma fold_docHead : List.foldl xstep xinit docHead = chanSt := by decide

lemma fold_docTail : List.foldl xstep chanSt docTail = ⟨true, [], .text, 1⟩ := by decide

lemma xscan_rssDocument (arts : List Article)
    (hsafe : ∀ a ∈ arts, xmlSafeArticle a = true) :
    xscan (rssDocument arts) = ⟨true, [], .text, 1⟩ := by
  unfold xscan rssDocument
  simp only [List.foldl_append]
  rw [fold_docHead, fold_items arts hsafe, fold_docTail]

/-! ## Query membership and route lemmas -/

lemma mem_recentQ {a : Article} {s : List Article} {n : Nat}
    (h : a ∈ recentQ s n) : a ∈ s :=
  mem_orderBy.mp (List.Sublist.mem h (List.take_sublist n _))

lemma mem_searchQ {a : Article} {s : List Article} {t : Str} {n : Nat}
    (h : a ∈ searchQ s t n) : a ∈ s := by
  have h1 := List.Sublist.mem h (List.take_sublist n _)
  exact (List.mem_filter.mp (mem_orderBy.mp h1)).1

lemma mem_routeArticles {a : Article} {q : Str} {s : List Article}
    (h : a ∈ routeArticles q s) : a ∈ s := by
  simp only [routeArticles] at h
  split at h
  · exact mem_recentQ h
  · exact mem_searchQ h

/-! ## Infix decomposition of a rendered item -/

lemma it1_split : it1 = "\n        <item>\n            ".toList ++ "<title>".toList := by decide

lemma it2_split : it2 = "</title>".toList ++ ("\n            ".toList ++ "<link>".toList) := by decide

lemma it3_split : it3 = "</link>".toList ++ ("\n            ".toList ++ "<description><![CDATA[".toList) := by decide

lemma it4_split : it4 = "</description>".toList ++ ("\n            ".toList ++ "<pubDate>".toList) := by decide

lemma it5_split : it5 = "</pubDate>".toList ++ ("\n            ".toList ++ "<guid>".toList) := by decide

lemma it6_split : it6 = "</guid>".toList ++ "\n        </item>\n        ".toList := by decide

lemma sub_of_parts {x pre post doc : Str} (h : doc = pre ++ x ++ post) : x <:+: doc :=
  ⟨pre, post, h.symm⟩

lemma item_sub_doc {a : Article} {arts : List Article} (ha : a ∈ arts) :
    rssItem a <:+: rssDocument arts := by
  have hj : rssItem a <:+: joinStr (arts.map rssItem) := by
    induction arts with
    | nil => cases ha
    | cons b rest ih =>
      rcases List.mem_cons.mp ha with rfl | hmem
      · exact ⟨[], joinStr (rest.map rssItem), rfl⟩
      · obtain ⟨u, v, huv⟩ := ih hmem
        refine ⟨rssItem b ++ u, v, ?_⟩
        show _ = rssItem b ++ joinStr (rest.map rssItem)
        rw [← huv]
        simp [List.append_assoc]
  obtain ⟨u, v, huv⟩ := hj
  exact ⟨docHead ++ u, v ++ docTail, by rw [rssDocument, ← huv]; simp⟩

lemma title_sub_item (a : Article) :
    ("<title>".toList ++ a.title ++ "</title>".toList) <:+: rssItem a := by
  refine @sub_of_parts _ ("\n        <item>\n            ".toList)
    ("\n            ".toList ++ "<link>".toList ++ a.link ++ it3 ++ a.summary ++
      cdEnd ++ it4 ++ rssDate a.published ++ it5 ++ a.link ++ it6) _ ?_
  rw [rssItem, it1_split, it2_split]
  simp [List.append_assoc]

lemma link_sub_item (a : Article) :
    ("<link>".toList ++ a.link ++ "</link>".toList) <:+: rssItem a := by
  refine @sub_of_parts _
    (it1 ++ a.title ++ "</title>".toList ++ "\n            ".toList)
    ("\n            ".toList ++ "<description><![CDATA[".toList ++ a.summary ++
      cdEnd ++ it4 ++ rssDate a.published ++ it5 ++ a.link ++ it6) _ ?_
  rw [rssItem, it2_split, it3_split]
  simp [List.append_assoc]

lemma desc_sub_item (a : Article) :
    ("<description><![CDATA[".toList ++ a.summary ++ "]]></description>".toList) <:+:
      rssItem a := by
  refine @sub_of_parts _
    (it1 ++ a.title ++ it2 ++ a.link ++ "</link>".toList ++ "\n            ".toList)
    ("\n            ".toList ++ "<pubDate>".toList ++ rssDate a.published ++
      it5 ++ a.link ++ it6) _ ?_
  rw [rssItem, it3_split, it4_split]
  have hcd : "]]></description>".toList = cdEnd ++ "</description>".toList := by decide
  rw [hcd]
  simp [List.append_assoc]

lemma pubDate_sub_item (a : Article) :
    ("<pubDate>".toList ++ rssDate a.published ++ "</pubDate>".toList) <:+: rssItem a := by
  refine @sub_of_parts _
    (it1 ++ a.title ++ it2 ++ a.link ++ it3 ++ a.summary ++ cdEnd ++
      "</description>".toList ++ "\n            ".toList)
    ("\n            ".toList ++ "<guid>".toList ++ a.link ++ it6) _ ?_
  rw [rssItem, it4_split, it5_split]
  simp [List.append_assoc]

lemma guid_sub_item (a : Article) :
    ("<guid>".toList ++ a.link ++ "</guid>".toList) <:+: rssItem a := by
  refine @sub_of_parts _
    (it1 ++ a.title ++ it2 ++ a.link ++ it3 ++ a.summary ++ cdEnd ++ it4 ++
      rssDate a.published ++ "</pubDate>".toList ++ "\n            ".toList)
    ("\n        </item>\n        ".toList) _ ?_
  rw [rssItem, it5_split, it6_split]
  simp [List.append_assoc]

/-! ## Claim theorems -/

/-- C10: a `q` parameter that is absent (the route's default `''`), empty, or
whitespace-only is stripped to the empty string and the request is served
exactly as if no search term were supplied: the 10 most recent articles,
unfiltered. -/
theorem C10_whitespace_query (q : Str) (s : List Article) (h : pyStrip q = []) :
    routeArticles q s = recentQ s 10 := by
  simp [routeArticles, h]

/-- C10 witness: a whitespace-only query on a one-article store. -/
theorem C10_whitespace_query_witness :
    pyStrip (" \t ".toList) = [] ∧
    routeArticles (" \t ".toList) [aW] = recentQ [aW] 10 :=
  ⟨by decide, C10_whitespace_query (" \t ".toList) [aW] (by decide)⟩

/-- C8: an ingestion pass only ever appends new rows to the store: whatever
the fetch results and whether the pass commits or aborts, the prior store is
an unchanged initial segment of the store afterwards (insert-if-absent, no
update, no delete). -/
theorem C8_insert_only (feeds : List FetchResult) (s : List Article) (now : Int) :
    ∃ added, passStore feeds s now = s ++ added := by
  unfold passStore
  cases h : update_feed feeds s now with
  | none => exact ⟨[], by simp⟩
  | some s2 =>
    obtain ⟨t, ht⟩ := update_feed_pre h
    exact ⟨t, by simp [ht]⟩

/-- C2 counterexample: a transport-level failure (a raised exception from
`requests.get`) on the first feed aborts the whole pass — the remaining
healthy feed is not processed and nothing is committed — whereas processing
the healthy feed alone stores its article.  The claim that such a failure
"never aborts processing of the remaining feeds" is therefore false of the
code, which has no try/except around `get_feed`. -/
theorem C2_counterexample :
    update_feed [.exc, .page [eW]] [] 0 = none ∧
    passStore [.exc, .page [eW]] [] 0 = [] ∧
    passStore [.page [eW]] [] 0 = [aW] := by decide

/-- C2 amended: a fetch that raises no exception but yields no entries (the
non-success-status case: `feedparser` finds nothing in the error body) is
skipped and the pass continues with the remaining feeds; but a transport
exception aborts the pass — the remaining feeds are not processed and the
pending inserts are discarded (the store is unchanged).  The scheduler
itself survives only because APScheduler catches job exceptions, which is
outside this code. -/
theorem C2_amended :
    (∀ (rest : List FetchResult) (s : List Article) (now : Int),
       update_feed (.page [] :: rest) s now = update_feed rest s now) ∧
    (∀ (rest : List FetchResult) (s : List Article) (now : Int),
       update_feed (.exc :: rest) s now = none ∧ passStore (.exc :: rest) s now = s) :=
  ⟨fun _ _ _ => rfl, fun _ _ _ => ⟨rfl, rfl⟩⟩

/-- C6: date normalization tries the `pubDate` string first; when that field
is present but unparseable the result is the ingestion-time fallback even if
a present, valid `published_parsed` time-tuple exists (the tuple is
bypassed); a parseable `pubDate` wins outright; and the time-tuple path is
used only when no `pubDate` field is present. -/
theorem C6_date_precedence :
    (∀ (e : RawEntry) (now : Int) (s : Str) (tt : Civil),
       e.pubDate = some s → parsePubDate s = none →
       e.published_parsed = some (some tt) →
       entryPublished e now = utcnow now) ∧
    (∀ (e : RawEntry) (now : Int) (s : Str) (d : PyDateTime),
       e.pubDate = some s → parsePubDate s = some d →
       entryPublished e now = astimezoneAms d) ∧
    (∀ (e : RawEntry) (now : Int) (tt : Civil),
       e.pubDate = none → e.published_parsed = some (some tt) →
       entryPublished e now = fromtimestampAms (mktime tt)) := by
  refine ⟨?_, ?_, ?_⟩
  · intro e now s tt h1 h2 h3
    simp [entryPublished, h1, h2]
  · intro e now s d h1 h2
    simp [entryPublished, h1, h2]
  · intro e now tt h1 h2
    simp [entryPublished, h1, h2]

/-- C6 witness: with an unparseable `pubDate` and a valid tuple the result is
the fallback; with a parseable `pubDate` the parsed date wins over the same
tuple; with no `pubDate` the tuple is used. -/
theorem C6_date_precedence_witness :
    entryPublished eC6 77 = utcnow 77 ∧
    entryPublished eC6good 77 =
      astimezoneAms ⟨secondsOfCivil ⟨2020, 1, 6, 12, 30, 45⟩, some (.fixed 60)⟩ ∧
    entryPublished eW 77 = utcnow 77 :=
  ⟨C6_date_precedence.1 eC6 77 ("garbage".toList) ⟨2020, 1, 1, 0, 0, 0⟩ rfl (by decide) rfl,
   C6_date_precedence.2.1 eC6good 77 ("Mon, 06 Jan 2020 12:30:45 +0100".toList) _
     rfl (by decide),
   by decide⟩

/-- C3 counterexample: for an entry with no usable date data, the stored
fallback `published` value is `datetime.utcnow()` — a timezone-naive UTC
reading, not a timezone-aware timestamp in the reference (Amsterdam)
timezone as the claim states. -/
theorem C3_counterexample :
    entryPublished eW 100 = utcnow 100 ∧
    (utcnow 100).tz = none ∧
    ¬(entryPublished eW 100).tz = some Tz.amsterdam ∧
    passStore [.page [eW]] [] 100 = [⟨"t".toList, "l".toList, some (utcnow 100), []⟩] := by
  decide

/-- C3 amended: `published` is always populated — every article the pipeline
creates carries `some` publication value — and that value is timezone-aware
in the reference (Amsterdam) timezone on the two parsed paths, but on the
fallback path it is `datetime.utcnow()`: the naive current UTC wall clock,
not a value in the reference timezone. -/
theorem C3_amended :
    (∀ (e : RawEntry) (now : Int),
       (entryPublished e now).tz = some Tz.amsterdam ∨
       entryPublished e now = utcnow now) ∧
    (∀ (e : RawEntry) (s s2 : List Article) (now : Int),
       processEntry s e now = some s2 →
       ∀ a ∈ s2, a ∈ s ∨ a.published = some (entryPublished e now)) := by
  constructor
  · intro e now
    cases hp : e.pubDate with
    | some str =>
      cases hd : parsePubDate str with
      | some d =>
        left
        rw [show entryPublished e now = astimezoneAms d by simp [entryPublished, hp, hd]]
        rfl
      | none =>
        right
        simp [entryPublished, hp, hd]
    | none =>
      cases hq : e.published_parsed with
      | some ott =>
        cases ott with
        | some tt =>
          left
          rw [show entryPublished e now = fromtimestampAms (mktime tt) by
            simp [entryPublished, hp, hq]]
          rfl
        | none =>
          right
          simp [entryPublished, hp, hq]
      | none =>
        right
        simp [entryPublished, hp, hq]
  · intro e s s2 now h a ha
    cases hl : e.link with
    | none => simp [processEntry, hl] at h
    | some l =>
      simp only [processEntry, hl] at h
      split at h
      · cases h
        exact Or.inl ha
      · cases ht : e.title with
        | none => simp [ht] at h
        | some t =>
          simp only [ht] at h
          cases h
          rcases List.mem_append.mp ha with hs | hnew
          · exact Or.inl hs
          · simp only [List.mem_singleton] at hnew
            subst hnew
            exact Or.inr rfl

/-- C3 amended witness: the fallback article of `eW` at clock 100. -/
theorem C3_amended_witness :
    processEntry [] eW 100 = some [aW100] ∧
    (aW100 ∈ ([] : List Article) ∨ aW100.published = some (entryPublished eW 100)) :=
  ⟨by decide, C3_amended.2 eW [] [aW100] 100 (by decide) aW100 (by decide)⟩

/-- C7 counterexample: an entry with no link field is not "dropped, and only
dropped" — the unguarded `entry.link` access raises and the pass aborts
(`none`), committing nothing; likewise a new entry lacking only its title is
not ingested: the `entry.title` access raises and the pass aborts. -/
theorem C7_counterexample :
    update_feed [.page [eNoLink]] [] 0 = none ∧
    update_feed [.page [eNoTitle]] [] 0 = none ∧
    passStore [.page [eNoTitle]] [] 0 = [] := by decide

/-- C7 amended: an entry with link and title present is ingested whatever its
other fields (dates and summary fall back); an entry with no link aborts the
pass with an attribute error rather than being dropped; an entry whose link
duplicates a stored article is skipped without its title ever being read;
and a new entry lacking its title also aborts the pass. -/
theorem C7_fields_amended :
    (∀ (e : RawEntry) (s : List Article) (now : Int) (l t : Str),
       e.link = some l → e.title = some t → (∀ a ∈ s, ¬a.link = l) →
       processEntry s e now =
         some (s ++ [⟨t, l, some (entryPublished e now), entrySummary e⟩])) ∧
    (∀ (e : RawEntry) (s : List Article) (now : Int),
       e.link = none → processEntry s e now = none) ∧
    (∀ (e : RawEntry) (s : List Article) (now : Int) (l : Str),
       e.link = some l → (∃ a ∈ s, a.link = l) → processEntry s e now = some s) ∧
    (∀ (e : RawEntry) (s : List Article) (now : Int) (l : Str),
       e.link = some l → e.title = none → (∀ a ∈ s, ¬a.link = l) →
       processEntry s e now = none) := by
  refine ⟨?_, ?_, ?_, ?_⟩
  · intro e s now l t hl ht hnew
    have hany : (s.any fun a => a.link == l) = false := by
      rw [List.any_eq_false]
      intro a ha
      simpa using hnew a ha
    simp [processEntry, hl, ht, hany]
  · intro e s now hl
    simp [processEntry, hl]
  · intro e s now l hl hdup
    obtain ⟨a, ha, hal⟩ := hdup
    have hany : (s.any fun a => a.link == l) = true :=
      List.any_eq_true.mpr ⟨a, ha, beq_iff_eq.mpr hal⟩
    simp [processEntry, hl, hany]
  · intro e s now l hl ht hnew
    have hany : (s.any fun a => a.link == l) = false := by
      rw [List.any_eq_false]
      intro a ha
      simpa using hnew a ha
    simp [processEntry, hl, ht, hany]

/-- C7 amended witness: a dateless, summaryless entry is ingested; a linkless
entry aborts; a duplicate-link entry without a title is skipped silently; a
fresh-link entry without a title aborts. -/
theorem C7_fields_amended_witness :
    processEntry [] eW 0 = some [aW] ∧
    processEntry [] eNoLink 0 = none ∧
    processEntry [aW] eNoTitleDup 0 = some [aW] ∧
    processEntry [aW] eNoTitle 0 = none :=
  ⟨C7_fields_amended.1 eW [] 0 ("l".toList) ("t".toList) rfl rfl (by decide),
   C7_fields_amended.2.1 eNoLink [] 0 rfl,
   C7_fields_amended.2.2.1 eNoTitleDup [aW] 0 ("l".toList) rfl ⟨aW, by decide, by decide⟩,
   C7_fields_amended.2.2.2 eNoTitle [aW] 0 ("l2".toList) rfl rfl (by decide)⟩

/-- C1: link uniqueness.  Starting from a store with pairwise-distinct links,
after any two committed passes (so covering entries ingested in the same
pass or in different passes), an entry link ingested by either pass is held
by exactly one stored article. -/
theorem C1_dedup (f1 f2 : List FetchResult) (s0 s1 s2 : List Article) (n1 n2 : Int)
    (e1 e2 : RawEntry) (l : Str)
    (hn : (s0.map Article.link).Nodup)
    (h1 : update_feed f1 s0 n1 = some s1) (h2 : update_feed f2 s1 n2 = some s2)
    (he1 : e1 ∈ feedEntries f1 ∨ e1 ∈ feedEntries f2)
    (he2 : e2 ∈ feedEntries f1 ∨ e2 ∈ feedEntries f2)
    (hl1 : e1.link = some l) (hl2 : e2.link = some l) :
    s2.countP (fun a => a.link == l) = 1 := by
  have hn2 : (s2.map Article.link).Nodup :=
    update_feed_nodup h2 (update_feed_nodup h1 hn)
  have hm : l ∈ s2.map Article.link := by
    rcases he1 with h | h
    · exact pre_mapLink (update_feed_pre h2) (update_feed_link h1 h hl1)
    · exact update_feed_link h2 h hl1
  exact countP_link_eq_one hn2 hm

/-- C1 witness: the same entry ingested by two consecutive passes is stored
exactly once. -/
theorem C1_dedup_witness :
    update_feed [.page [eW]] [] 0 = some [aW] ∧
    update_feed [.page [eW]] [aW] 0 = some [aW] ∧
    List.countP (fun a => a.link == "l".toList) [aW] = 1 :=
  ⟨by decide, by decide,
   C1_dedup [.page [eW]] [.page [eW]] [] [aW] [aW] 0 0 eW eW ("l".toList)
     (by decide) (by decide) (by decide)
     (Or.inl (by decide)) (Or.inr (by decide)) rfl rfl⟩

/-- C5 counterexample: the tie-break clause does not follow from the
program.  For the store `[aT1, aT2]` — two distinct articles with equal
`published` keys, inserted in that order — the reversed list `[aT2, aT1]`
also satisfies everything the `ORDER BY published DESC` query guarantees
(the query names no secondary sort key, and SQLite leaves equal-key order
undefined), yet a `recent(2)` reading it returns the equal-key articles out
of insertion order. -/
theorem C5_counterexample :
    pubKey aT1 = pubKey aT2 ∧
    aT1 ≠ aT2 ∧
    isOrderedByPublishedDesc [aT1, aT2] [aT2, aT1] ∧
    ([aT2, aT1].take 2 : List Article) ≠ [aT1, aT2] :=
  ⟨by decide, by decide, revTied_admissible, by decide⟩

/-- C5 amended: for every result the `ORDER BY published DESC` query may
return — any permutation of the store that is descending in the stored
`published` key, which is all the query (with no secondary sort key)
guarantees — the `LIMIT n` prefix has length `min n total`, is descending
by `published`, is drawn from the store, and omits only articles whose key
is no larger than every returned one; the order of equal-key articles is
not guaranteed to follow insertion/identifier order.  The model's
executable query (`orderByPublishedDesc`, underlying `recentQ`) is one
admissible such result. -/
theorem C5_recent_amended (s full : List Article) (n : Nat)
    (h : isOrderedByPublishedDesc s full) :
    isOrderedByPublishedDesc s (orderByPublishedDesc s) ∧
    (full.take n).length = min n s.length ∧
    List.Pairwise geB (full.take n) ∧
    (∀ a ∈ full.take n, a ∈ s) ∧
    (∀ b ∈ s, b ∉ full.take n →
       ∀ a ∈ full.take n, keyLE (pubKey b) (pubKey a) = true) := by
  obtain ⟨hperm, hsort⟩ := h
  refine ⟨orderBy_admissible s, ?_, ?_, ?_, ?_⟩
  · rw [List.length_take, hperm.length_eq]
  · exact List.Pairwise.sublist (List.take_sublist _ _) hsort
  · intro a ha
    exact hperm.mem_iff.mp (List.Sublist.mem ha (List.take_sublist _ _))
  · intro b hb hnb a ha
    have hbfull : b ∈ full := hperm.mem_iff.mpr hb
    have hsplit := List.take_append_drop n full
    have hbdrop : b ∈ full.drop n := by
      rw [← hsplit] at hbfull
      rcases List.mem_append.mp hbfull with h2 | h2
      · exact absurd h2 hnb
      · exact h2
    have hpw := hsort
    rw [← hsplit] at hpw
    exact (List.pairwise_append.mp hpw).2.2 a ha b hbdrop

/-- C5 amended witness: instantiated at the tied two-article store with the
reversed admissible query result and `n = 1`. -/
theorem C5_recent_amended_witness :
    isOrderedByPublishedDesc [aT1, aT2] [aT2, aT1] ∧
    (([aT2, aT1] : List Article).take 1).length =
      min 1 ([aT1, aT2] : List Article).length ∧
    (∀ a ∈ ([aT2, aT1] : List Article).take 1, a ∈ ([aT1, aT2] : List Article)) := by
  obtain ⟨h1, h2, h3, h4, h5⟩ :=
    C5_recent_amended [aT1, aT2] [aT2, aT1] 1 revTied_admissible
  exact ⟨revTied_admissible, h2, h4⟩

/-- C4 counterexample: search with the term `_` returns the article titled
`a` even though `_` is not a (case-insensitive) substring of its title or
summary — `_` is a `LIKE` wildcard, so the claimed iff with substring
matching fails. -/
theorem C4_counterexample :
    searchQ [aU] ("_".toList) 10 = [aU] ∧
    hasSub (lowerStr ("_".toList)) (lowerStr aU.title) = false ∧
    hasSub (lowerStr ("_".toList)) (lowerStr aU.summary) = false := by decide

/-- C4 amended: for search terms containing no `LIKE` wildcard (`%`, `_`),
the search query equals the n-limited, published-descending ordering of
exactly the articles with a case-insensitive substring match of the term in
title or summary (so membership, the n-limit and the ordering are as the
claim states); terms containing wildcards match per `LIKE` instead.
`hasSub (lowerStr t) (lowerStr x)` is the spec-side reading of
"T is a case-insensitive substring of x". -/
theorem C4_search_amended (s : List Article) (t : Str) (n : Nat)
    (h1 : '%' ∉ t) (h2 : '_' ∉ t) :
    searchQ s t n =
      (orderByPublishedDesc (s.filter (fun a =>
        hasSub (lowerStr t) (lowerStr a.title) ||
        hasSub (lowerStr t) (lowerStr a.summary)))).take n := by
  unfold searchQ
  have hf : s.filter (fun a => ilikeMatch t a.title || ilikeMatch t a.summary) =
      s.filter (fun a =>
        hasSub (lowerStr t) (lowerStr a.title) ||
        hasSub (lowerStr t) (lowerStr a.summary)) :=
    List.filter_congr (fun x _ => by
      rw [ilikeMatch_eq_hasSub h1 h2, ilikeMatch_eq_hasSub h1 h2])
  rw [hf]

/-- C4 amended witness: the wildcard-free term `T` finds the article titled
`t` case-insensitively. -/
theorem C4_search_amended_witness :
    searchQ [aW] ("T".toList) 10 =
      (orderByPublishedDesc ([aW].filter (fun a =>
        hasSub (lowerStr ("T".toList)) (lowerStr a.title) ||
        hasSub (lowerStr ("T".toList)) (lowerStr a.summary)))).take 10 ∧
    searchQ [aW] ("T".toList) 10 = [aW] :=
  ⟨C4_search_amended [aW] ("T".toList) 10 (by decide) (by decide), by decide⟩

/-- C9 counterexample: with a stored title containing a raw `<`, the
syndication route's response is not well-formed XML (the interpolation does
no escaping), refuting the claim for arbitrary store states. -/
theorem C9_counterexample : wellFormedXml (rss_feed [] [aBad]) = false := by
  have hroute : routeArticles [] [aBad] = [aBad] := by decide
  have hdoc : rss_feed [] [aBad] = docHead ++ (rssItem aBad ++ []) ++ docTail := by
    rw [rss_feed, hroute]
    rfl
  rw [hdoc]
  unfold wellFormedXml xscan
  simp only [List.foldl_append, List.append_nil]
  rw [fold_docHead]
  rw [show rssItem aBad = it1 ++ aBad.title ++ it2 ++ aBad.link ++ it3 ++ aBad.summary ++
    cdEnd ++ it4 ++ rssDate aBad.published ++ it5 ++ aBad.link ++ it6 from rfl]
  simp only [List.foldl_append]
  rw [fold_it1]
  rw [show List.foldl xstep stTitle aBad.title =
    ⟨true, stTitle.stack, .openRest ("3".toList), 1⟩ from by decide]
  rw [show List.foldl xstep ⟨true, stTitle.stack, .openRest ("3".toList), 1⟩ it2 = xbad
    from by decide]
  rw [fold_xbad, fold_xbad, fold_xbad, fold_xbad, fold_xbad, fold_xbad, fold_xbad,
    fold_xbad, fold_xbad, fold_xbad]
  rfl

/-- C9 amended: for every query and every store whose articles are
markup-safe (title and link free of `<` and `&`, summary free of the CDATA
terminator `]]>`), the route returns a well-formed `rss` document opening
exactly one `channel`, and each selected article contributes its title,
link, CDATA-wrapped description, pubDate (empty when `published` is null)
and a guid equal to its link.  Unsafe stored text can break well-formedness,
as the counterexample shows. -/
theorem C9_rss_amended (q : Str) (s : List Article)
    (hsafe : ∀ a ∈ s, xmlSafeArticle a = true) :
    wellFormedXml (rss_feed q s) = true ∧
    channelCount (rss_feed q s) = 1 ∧
    ∀ a ∈ routeArticles q s,
      ("<title>".toList ++ a.title ++ "</title>".toList) <:+: rss_feed q s ∧
      ("<link>".toList ++ a.link ++ "</link>".toList) <:+: rss_feed q s ∧
      ("<description><![CDATA[".toList ++ a.summary ++ "]]></description>".toList) <:+:
        rss_feed q s ∧
      ("<pubDate>".toList ++ rssDate a.published ++ "</pubDate>".toList) <:+:
        rss_feed q s ∧
      ("<guid>".toList ++ a.link ++ "</guid>".toList) <:+: rss_feed q s ∧
      (a.published = none → rssDate a.published = []) := by
  have hsafe2 : ∀ a ∈ routeArticles q s, xmlSafeArticle a = true :=
    fun a ha => hsafe a (mem_routeArticles ha)
  have hscan := xscan_rssDocument (routeArticles q s) hsafe2
  refine ⟨?_, ?_, ?_⟩
  · simp [wellFormedXml, rss_feed, hscan]
  · simp [channelCount, rss_feed, hscan]
  · intro a ha
    have hsub : ∀ x : Str, x <:+: rssItem a → x <:+: rss_feed q s :=
      fun x hx => hx.trans (item_sub_doc ha)
    exact ⟨hsub _ (title_sub_item a), hsub _ (link_sub_item a),
      hsub _ (desc_sub_item a), hsub _ (pubDate_sub_item a),
      hsub _ (guid_sub_item a), fun hp => by rw [hp]; rfl⟩

/-- C9 amended witness: a markup-free one-article store renders a well-formed
document. -/
theorem C9_rss_amended_witness :
    (∀ a ∈ [aGood], xmlSafeArticle a = true) ∧
    wellFormedXml (rss_feed [] [aGood]) = true :=
  ⟨by decide, (C9_rss_amended [] [aGood] (by decide)).1⟩

end FlaskRss
